import Mathlib

/-!
Shallow embedding of the adaptive-practice core of the english_app
repository: the task-selection policy (`generateLearningTask`,
`findLeastRecentTask` in the Gemini service), the mastery-update step
(`handleNext` in `LearningDashboard.tsx`), answer normalization
(`handleCheckAnswer`), and the state-update handlers of `App.tsx`
(`handleTaskComplete`, `handleLevelUpTestComplete`,
`handleFeedbackSubmit`).  JavaScript array operations that the code uses
(`slice` with a negative start, `splice(0, k)`, `shift`, `push`,
`findIndex`, `lastIndexOf`, `indexOf`) are embedded with their
JavaScript semantics.
-/

namespace EnglishApp

/-- CEFR levels, from `types.ts` (enum CEFRLevel). -/
inductive CEFRLevel where
  | A1 | A2 | B1 | B2 | C1
deriving DecidableEq, Repr

/-- Constant `CEFR_LEVELS_ORDER` from `constants.ts`. -/
def CEFR_LEVELS_ORDER : List CEFRLevel :=
  [CEFRLevel.A1, CEFRLevel.A2, CEFRLevel.B1, CEFRLevel.B2, CEFRLevel.C1]

/-- Constant `VOCABULARY_MASTERY_THRESHOLD` from `constants.ts`. -/
def VOCABULARY_MASTERY_THRESHOLD : Int := 15

/-- Constant `LONG_TERM_TASK_HISTORY_LENGTH` from `constants.ts`. -/
def LONG_TERM_TASK_HISTORY_LENGTH : Nat := 12

/-- Constant `CONCURRENT_WORDS_TO_LEARN` from `constants.ts`. -/
def CONCURRENT_WORDS_TO_LEARN : Nat := 20

/-- Constant `RECENTLY_INTRODUCED_WORDS_MEMORY` from `constants.ts`. -/
def RECENTLY_INTRODUCED_WORDS_MEMORY : Nat := 5

/-- Constant `PROGRESS_HISTORY_LENGTH` of the bundled app variant. -/
def PROGRESS_HISTORY_LENGTH : Nat := 100

/-- Constant `LEVEL_UP_PASS_PERCENTAGE = 0.8` of the bundled app variant. -/
def LEVEL_UP_PASS_PERCENTAGE : ℚ := 8 / 10

/-- Constant `ALL_TASK_TYPES` from `types.ts`. -/
def ALL_TASK_TYPES : List String :=
  ["Translate", "FillInTheBlank", "BuildSentence", "Listen",
   "CorrectTheMistake", "MultipleChoice", "WordDefinition",
   "SynonymsAndAntonyms", "MatchDefinition", "OddOneOut", "Categorization"]

/-- Structure `VocabularyWord` from `types.ts`: a word with its mastery count.
Mastery is embedded as an integer, as in the source (it is clamped at 0
by `Math.max`, not by the type). -/
structure VocabularyWord where
  word : String
  mastery : Int
deriving DecidableEq, Repr

/-- Structure `UserData` as used by the learning dashboard (`types.ts`): level,
vocabulary, task-type history, completed-task counter, recently
introduced words. -/
structure UserData where
  level : CEFRLevel
  vocabulary : List VocabularyWord
  taskHistory : List String
  tasksCompleted : Nat
  recentNewWords : List String
deriving DecidableEq, Repr

/-- The `user` object of the App.tsx state, with name and image URL. -/
structure UserInfo where
  name : String
  imageUrl : String
deriving DecidableEq, Repr

/-- The `dailyStats` object of the App.tsx state. -/
structure DailyStats where
  date : String
  completed : Nat
  correct : Nat
deriving DecidableEq, Repr

/-- The `imageGeneration` object of the App.tsx state. -/
structure ImageGeneration where
  count : Nat
  date : String
deriving DecidableEq, Repr

/-- The `UserData` shape handled by `App.tsx`: here `taskHistory` is the
boolean progress history (one entry per graded question), and the state
additionally carries user info, the API key, daily stats, the feedback
history and the image-generation quota. -/
structure AppUserData where
  user : UserInfo
  apiKey : String
  level : CEFRLevel
  imageGeneration : ImageGeneration
  taskHistory : List Bool
  dailyStats : DailyStats
  feedbackHistory : List String
deriving DecidableEq, Repr

/-! ### JavaScript array-operation embeddings -/

/-- JavaScript `arr.slice(start)` for a single (possibly negative)
start argument: a negative start counts from the end, clamped at 0; a
non-negative start is clamped at the length. -/
def jsSliceFrom (l : List α) (start : Int) : List α :=
  let len : Int := l.length
  let b : Int := if start < 0 then max (len + start) 0 else min start len
  l.drop b.toNat

/-- The last `n` entries of a list (all of it when it is shorter):
`l.drop (l.length - n)`.  This is what FIFO eviction with cap `n`
produces. -/
def tailN (n : Nat) (l : List α) : List α :=
  l.drop (l.length - n)

/-- JavaScript `arr.lastIndexOf(x)` restricted to the found case:
the index of the last occurrence, `none` when absent (JS returns -1). -/
def lastIndexOf : List String → String → Option Nat
  | [], _ => none
  | x :: xs, t =>
    match lastIndexOf xs t with
    | some i => some (i + 1)
    | none => if x == t then some 0 else none

/-! ### App.tsx handlers -/

/-- Handler `handleTaskComplete` from `App.tsx`: append the boolean results to
the progress history, truncate from the front (`splice(0, len - cap)`)
when the cap is exceeded, and add the counts to the daily stats. -/
def handleTaskComplete (u : AppUserData) (results : List Bool) : AppUserData :=
  let correctCount := (results.filter id).length
  let totalCount := results.length
  let newHistory0 := u.taskHistory ++ results
  let newHistory :=
    if newHistory0.length > PROGRESS_HISTORY_LENGTH then
      newHistory0.drop (newHistory0.length - PROGRESS_HISTORY_LENGTH)
    else newHistory0
  { u with
    taskHistory := newHistory
    dailyStats := { u.dailyStats with
                    completed := u.dailyStats.completed + totalCount
                    correct := u.dailyStats.correct + correctCount } }

/-- Handler `handleFeedbackSubmit` from `App.tsx`: push the feedback, then
`shift()` (drop the oldest single entry) when the length exceeds 20. -/
def handleFeedbackSubmit (u : AppUserData) (feedback : String) : AppUserData :=
  let newFeedbackHistory := u.feedbackHistory ++ [feedback]
  let newFeedbackHistory2 :=
    if newFeedbackHistory.length > 20 then newFeedbackHistory.drop 1
    else newFeedbackHistory
  { u with feedbackHistory := newFeedbackHistory2 }

/-- JavaScript `arr.indexOf(x)`: index of the first occurrence, -1 when
absent. -/
def jsIndexOfAux : List CEFRLevel → CEFRLevel → Nat → Int
  | [], _, _ => -1
  | y :: ys, x, n => if y = x then (n : Int) else jsIndexOfAux ys x (n + 1)

/-- JavaScript `CEFR_LEVELS_ORDER.indexOf(level)`. -/
def jsIndexOf (l : List CEFRLevel) (x : CEFRLevel) : Int :=
  jsIndexOfAux l x 0

/-- Handler `handleLevelUpTestComplete` from `App.tsx`: on a passing score the
level moves to `CEFR_LEVELS_ORDER[currentLevelIndex + 1]` when that
exists, otherwise it is unchanged; the progress history is reset to `[]`
regardless of the outcome; everything else is untouched. -/
def handleLevelUpTestComplete (u : AppUserData) (score : ℚ) : AppUserData :=
  let isSuccess := LEVEL_UP_PASS_PERCENTAGE ≤ score
  let currentLevelIndex := jsIndexOf CEFR_LEVELS_ORDER u.level
  let nextLevel : Option CEFRLevel := CEFR_LEVELS_ORDER.get? (currentLevelIndex + 1).toNat
  let newLevel :=
    match nextLevel with
    | some nl => if isSuccess then nl else u.level
    | none => u.level
  { u with level := newLevel, taskHistory := [] }

/-! ### Mastery update (`handleNext` in `LearningDashboard.tsx`) -/

/-- ASCII lowercase of a character, as JavaScript `toLowerCase` acts on
the ASCII range used by the word comparison in `handleNext`. -/
def toLowerChar (c : Char) : Char :=
  if 65 ≤ c.toNat ∧ c.toNat ≤ 90 then Char.ofNat (c.toNat + 32) else c

/-- JavaScript `str.toLowerCase()` over a whole string. -/
def toLowerStr (s : String) : String :=
  ⟨s.data.map toLowerChar⟩

/-- The predicate of `vocabulary.findIndex(v => v.word.toLowerCase()
=== wordToLearn.toLowerCase())`. -/
def vocabMatches (wordToLearn : String) (v : VocabularyWord) : Bool :=
  toLowerStr v.word == toLowerStr wordToLearn

/-- Handler `handleNext` from `LearningDashboard.tsx`: bump `tasksCompleted`,
append the task type to the task-type history capped with
`slice(-LONG_TERM_TASK_HISTORY_LENGTH)`, then update the vocabulary
from the task's `wordToLearn` and the grading outcome: a tracked word
gains 1 on a correct outcome or loses 5 clamped at 0 on an incorrect
one, and is filtered out when its new mastery reaches the threshold; an
unknown word is added with mastery 1 (and recorded among the recently
introduced words) only on a correct `WordDefinition` task. -/
def handleNext (u : UserData) (taskType : String) (wordToLearn : Option String)
    (isCorrect : Bool) : UserData :=
  let u1 := { u with
    tasksCompleted := u.tasksCompleted + 1
    taskHistory :=
      jsSliceFrom (u.taskHistory ++ [taskType]) (-(LONG_TERM_TASK_HISTORY_LENGTH : Int)) }
  match wordToLearn with
  | none => u1
  | some w =>
    let vocabulary := u1.vocabulary
    match vocabulary.findIdx? (vocabMatches w) with
    | some wordIndex =>
      let old := vocabulary.getD wordIndex ⟨"", 0⟩
      let newMastery := if isCorrect then old.mastery + 1 else max 0 (old.mastery - 5)
      let voc2 := vocabulary.set wordIndex { old with mastery := newMastery }
      if VOCABULARY_MASTERY_THRESHOLD ≤ newMastery then
        { u1 with vocabulary := voc2.eraseIdx wordIndex }
      else
        { u1 with vocabulary := voc2 }
    | none =>
      if taskType == "WordDefinition" && isCorrect then
        { u1 with
          vocabulary := vocabulary ++ [⟨w, 1⟩]
          recentNewWords :=
            jsSliceFrom u1.recentNewWords (-(RECENTLY_INTRODUCED_WORDS_MEMORY : Int) + 1)
              ++ [w] }
      else u1

/-! ### Task selection (`generateLearningTask`, `findLeastRecentTask`) -/

/-- The age of a task type in the history: the distance from its last
occurrence to the end of the history (`history.length - 1 - lastIndex`),
and `Infinity` (`⊤`) when it never occurred. -/
def ageOf (history : List String) (t : String) : WithTop Nat :=
  match lastIndexOf history t with
  | none => ⊤
  | some i => ((history.length - 1 - i : Nat) : WithTop Nat)

/-- One iteration of the loop of `findLeastRecentTask`.  The
accumulator carries the current `leastRecent` and `maxAge`; the initial
`maxAge = -1` is embedded as `none`, which every age (all are `≥ 0`)
exceeds, exactly as in the source. -/
def flrtStep (history : List String) (acc : String × Option (WithTop Nat))
    (taskType : String) : String × Option (WithTop Nat) :=
  if taskType == "WordDefinition" then acc
  else
    let age := ageOf history taskType
    match acc.2 with
    | none => (taskType, some age)
    | some m => if m < age then (taskType, some age) else acc

/-- Function `findLeastRecentTask` from the Gemini service: iterate over the
shuffled task list (the shuffle outcome is the explicit first argument,
a permutation of `allTasks` produced by `shuffleArray`), skip
`WordDefinition`, and keep the type of strictly greatest age; the
initial `leastRecent` is `allTasks[0]`. -/
def findLeastRecentTask (shuffledTasks allTasks history : List String) : String :=
  (shuffledTasks.foldl (flrtStep history) (allTasks.headD "", none)).1

/-- The four selection-rule branches of `generateLearningTask`. -/
inductive SelectionRule where
  | variety | weakest | newWord | defaultRule
deriving DecidableEq, Repr

/-- The branch structure of `generateLearningTask`: the variety rule at
`tasksCompleted % 8 == 4`, the weakest-word rule at `% 8 == 0` with a
non-empty vocabulary, the new-word rule at `% 3 == 0` with fewer than
`CONCURRENT_WORDS_TO_LEARN` words, the default otherwise — tested in
that order, all guarded by `tasksCompleted > 0`. -/
def selectRule (tasksCompleted : Nat) (vocabSize : Nat) : SelectionRule :=
  if tasksCompleted > 0 ∧ tasksCompleted % 8 = 4 then .variety
  else if tasksCompleted > 0 ∧ tasksCompleted % 8 = 0 ∧ vocabSize > 0 then .weakest
  else if tasksCompleted > 0 ∧ tasksCompleted % 3 = 0 ∧
            vocabSize < CONCURRENT_WORDS_TO_LEARN then .newWord
  else .defaultRule

/-- Stable insertion by ascending mastery, modelling the stable
JavaScript `sort((a, b) => a.mastery - b.mastery)`. -/
def insertByMastery (v : VocabularyWord) : List VocabularyWord → List VocabularyWord
  | [] => [v]
  | w :: ws => if v.mastery < w.mastery then v :: w :: ws else w :: insertByMastery v ws

/-- The spread-and-sort `[...vocabulary].sort((a, b) => a.mastery - b.mastery)`. -/
def sortByMastery (l : List VocabularyWord) : List VocabularyWord :=
  l.foldr insertByMastery []

/-- The string value of a `CEFRLevel`, from `types.ts`. -/
def CEFRLevel.str : CEFRLevel → String
  | .A1 => "A1 (Beginner)"
  | .A2 => "A2 (Elementary)"
  | .B1 => "B1 (Intermediate)"
  | .B2 => "B2 (Upper-Intermediate)"
  | .C1 => "C1 (Advanced)"

/-- JavaScript `JSON.stringify` of an array of plain words. -/
def jsonStringifyArr (l : List String) : String :=
  "[" ++ String.intercalate "," (l.map (fun w => "\"" ++ w ++ "\"")) ++ "]"

/-- The `forcedInstruction` computed by `generateLearningTask`: the
pure selection-and-instruction-construction step, with the shuffle
outcome used by `findLeastRecentTask` passed explicitly. -/
def generateInstruction (shuffledTasks : List String) (u : UserData) : String :=
  if u.tasksCompleted > 0 ∧ u.tasksCompleted % 8 = 4 then
    let leastRecentTask := findLeastRecentTask shuffledTasks ALL_TASK_TYPES u.taskHistory
    s!"**PRIORITY**: Generate a \x27{leastRecentTask}\x27 task. This task type was chosen to add variety to the learning session. For tasks like \x27SynonymsAndAntonyms\x27, \x27MatchDefinition\x27, \x27OddOneOut\x27, \x27Categorization\x27, please provide options for a multiple-choice format."
  else if u.tasksCompleted > 0 ∧ u.tasksCompleted % 8 = 0 ∧ u.vocabulary.length > 0 then
    let sortedVocab := sortByMastery u.vocabulary
    let weakestWord := (sortedVocab.headD ⟨"", 0⟩).word
    s!"**PRIORITY**: Generate a task to practice the word \x27{weakestWord}\x27. Do NOT use the \x27WordDefinition\x27 type. Use a type like \x27FillInTheBlank\x27, \x27Translate\x27, or \x27BuildSentence\x27 involving this word."
  else if u.tasksCompleted > 0 ∧ u.tasksCompleted % 3 = 0 ∧
            u.vocabulary.length < CONCURRENT_WORDS_TO_LEARN then
    let wordsToExclude := jsonStringifyArr (u.vocabulary.map (·.word) ++ u.recentNewWords)
    let levelStr := u.level.str
    s!"**PRIORITY**: Generate a \x27WordDefinition\x27 task. The word should be new, relevant to the user\x27s {levelStr}, and NOT in this list of words: {wordsToExclude}."
  else
    let allTypes := String.intercalate ", " ALL_TASK_TYPES
    s!"Based on the user\x27s profile, choose an optimal task type to help them improve. Avoid tasks from their recent history if possible. Good task types are: {allTypes}. For new task types like \x27SynonymsAndAntonyms\x27, \x27MatchDefinition\x27, \x27OddOneOut\x27, \x27Categorization\x27, please provide options for a multiple-choice format."

/-! ### Answer normalization (`handleCheckAnswer`) -/

/-- The whitespace class of the regular expressions `\s+` and of
`trim` (the characters the code can meet in practice). -/
def isWsChar (c : Char) : Bool :=
  c == ' ' || c == '\t' || c == '\n' || c == '\r' || c == '\x0b' || c == '\x0c'

/-- The punctuation characters deleted by
`replace(/[.,/#!$%^&*;:{}=\-_`~()]/g, "")`. -/
def punctChars : List Char :=
  ['.', ',', '/', '#', '!', '$', '%', '^', '&', '*', ';', ':',
   Char.ofNat 123, Char.ofNat 125, '=', '-', '_', Char.ofNat 96, '~', '(', ')']

/-- Membership in the deleted punctuation class. -/
def isPunctChar (c : Char) : Bool :=
  punctChars.contains c

/-- JavaScript `replace(/\s+/g, ' ')`: each maximal run of whitespace becomes one
space; the flag records whether the previous character was
whitespace. -/
def collapseWsAux : Bool → List Char → List Char
  | _, [] => []
  | prevWs, c :: rest =>
    if isWsChar c then
      if prevWs then collapseWsAux true rest else ' ' :: collapseWsAux true rest
    else c :: collapseWsAux false rest

/-- JavaScript `str.trim()`: drop whitespace from both ends. -/
def trimWs (s : List Char) : List Char :=
  ((s.dropWhile isWsChar).reverse.dropWhile isWsChar).reverse

/-- The `normalize` closure of `handleCheckAnswer`: lowercase, delete
the punctuation class, collapse whitespace runs to single spaces,
trim. -/
def normalize (s : List Char) : List Char :=
  trimWs (collapseWsAux false ((s.map toLowerChar).filter (fun c => !isPunctChar c)))

/-- The grading comparison of `handleCheckAnswer`:
`normalize(userAnswer) === normalize(task.correctAnswer)`. -/
def handleCheckAnswer (userAnswer correctAnswer : List Char) : Bool :=
  normalize userAnswer == normalize correctAnswer

/-! ### Helper lemmas -/

theorem eraseIdx_set (l : List α) (i : Nat) (x : α) :
    (l.set i x).eraseIdx i = l.eraseIdx i := by
  induction l generalizing i with
  | nil => rfl
  | cons a l ih =>
    cases i with
    | zero => rfl
    | succ n => simpa using ih n

theorem jsSliceFrom_neg (l : List α) (n : Nat) (hn : 0 < n) :
    jsSliceFrom l (-(n : Int)) = tailN n l := by
  simp only [jsSliceFrom, tailN]
  rw [if_pos (by exact_mod_cast Int.neg_neg_of_pos (by exact_mod_cast hn))]
  congr 1
  omega

theorem tailN_length_le (n : Nat) (l : List α) : (tailN n l).length ≤ n := by
  simp only [tailN, List.length_drop]
  omega

theorem tailN_eq_self (n : Nat) (l : List α) (h : l.length ≤ n) : tailN n l = l := by
  simp only [tailN]
  rw [Nat.sub_eq_zero_of_le h, List.drop_zero]

theorem tailN_snoc (n : Nat) (l : List α) (x : α) :
    tailN (n + 1) (l ++ [x]) = tailN n l ++ [x] := by
  simp only [tailN, List.length_append, List.length_singleton]
  rw [List.drop_append_of_le_length (by omega)]
  congr 2
  omega

/-- Base shape of `handleNext`: the counter and the task-type history
are updated the same way in every branch. -/
theorem handleNext_base (u : UserData) (t : String) (w : Option String) (c : Bool) :
    (handleNext u t w c).tasksCompleted = u.tasksCompleted + 1 ∧
    (handleNext u t w c).taskHistory =
      jsSliceFrom (u.taskHistory ++ [t]) (-(LONG_TERM_TASK_HISTORY_LENGTH : Int)) := by
  cases w with
  | none => exact ⟨rfl, rfl⟩
  | some w =>
    simp only [handleNext]
    cases hfi : List.findIdx? (vocabMatches w) u.vocabulary with
    | none =>
      simp only [hfi]
      split <;> exact ⟨rfl, rfl⟩
    | some i =>
      simp only [hfi]
      cases c <;> constructor <;> (repeat' split) <;> rfl

/-- Shape of `handleNext` when the task carries no word. -/
theorem handleNext_no_word (u : UserData) (t : String) (c : Bool) :
    (handleNext u t none c).vocabulary = u.vocabulary ∧
    (handleNext u t none c).recentNewWords = u.recentNewWords :=
  ⟨rfl, rfl⟩

/-- Shape of `handleNext` on a correct outcome for a tracked word: the
first matching entry moves to `mastery + 1`, and is erased when that
reaches the threshold; the recently introduced words are untouched. -/
theorem handleNext_found_correct (u : UserData) (t w : String) (i : Nat)
    (hfi : List.findIdx? (vocabMatches w) u.vocabulary = some i) :
    (handleNext u t (some w) true).vocabulary =
      (if VOCABULARY_MASTERY_THRESHOLD ≤ (u.vocabulary.getD i ⟨"", 0⟩).mastery + 1 then
        (u.vocabulary.set i
          ⟨(u.vocabulary.getD i ⟨"", 0⟩).word,
            (u.vocabulary.getD i ⟨"", 0⟩).mastery + 1⟩).eraseIdx i
      else
        u.vocabulary.set i
          ⟨(u.vocabulary.getD i ⟨"", 0⟩).word,
            (u.vocabulary.getD i ⟨"", 0⟩).mastery + 1⟩) ∧
    (handleNext u t (some w) true).recentNewWords = u.recentNewWords := by
  simp only [handleNext, hfi]
  constructor <;> (repeat' split) <;> first | rfl | (exfalso; omega) | simp_all

/-- Shape of `handleNext` on an incorrect outcome for a tracked word:
the first matching entry moves to `max 0 (mastery - 5)`, and is erased
when that reaches the threshold; the recently introduced words are
untouched. -/
theorem handleNext_found_incorrect (u : UserData) (t w : String) (i : Nat)
    (hfi : List.findIdx? (vocabMatches w) u.vocabulary = some i) :
    (handleNext u t (some w) false).vocabulary =
      (if VOCABULARY_MASTERY_THRESHOLD ≤ max 0 ((u.vocabulary.getD i ⟨"", 0⟩).mastery - 5) then
        (u.vocabulary.set i
          ⟨(u.vocabulary.getD i ⟨"", 0⟩).word,
            max 0 ((u.vocabulary.getD i ⟨"", 0⟩).mastery - 5)⟩).eraseIdx i
      else
        u.vocabulary.set i
          ⟨(u.vocabulary.getD i ⟨"", 0⟩).word,
            max 0 ((u.vocabulary.getD i ⟨"", 0⟩).mastery - 5)⟩) ∧
    (handleNext u t (some w) false).recentNewWords = u.recentNewWords := by
  simp only [handleNext, hfi]
  constructor <;> (repeat' split) <;> first | rfl | (exfalso; omega) | simp_all

/-- Shape of `handleNext` when the word is not tracked: on a correct
`WordDefinition` outcome it is pushed with mastery 1 and recorded among
the recently introduced words; otherwise nothing changes. -/
theorem handleNext_notfound (u : UserData) (t w : String) (c : Bool)
    (hfi : List.findIdx? (vocabMatches w) u.vocabulary = none) :
    ((t == "WordDefinition" && c) = true →
      (handleNext u t (some w) c).vocabulary = u.vocabulary ++ [⟨w, 1⟩] ∧
      (handleNext u t (some w) c).recentNewWords =
        jsSliceFrom u.recentNewWords (-(RECENTLY_INTRODUCED_WORDS_MEMORY : Int) + 1)
          ++ [w]) ∧
    ((t == "WordDefinition" && c) = false →
      (handleNext u t (some w) c).vocabulary = u.vocabulary ∧
      (handleNext u t (some w) c).recentNewWords = u.recentNewWords) := by
  simp only [handleNext, hfi]
  constructor
  · intro hb
    rw [if_pos hb]
    exact ⟨rfl, rfl⟩
  · intro hb
    rw [if_neg (by simp [hb])]
    exact ⟨rfl, rfl⟩

/-! ### Theorems -/

/-- C4: the learner's level only moves forward through
`CEFR_LEVELS_ORDER` and never skips or regresses: below the pass
percentage `handleLevelUpTestComplete` leaves the level unchanged; at or
above it the level becomes the immediate successor in the list
(unchanged when already last); the post-state index is never smaller
than the pre-state index nor more than one greater. -/
theorem C4_level_moves_forward_one_step (u : AppUserData) (score : ℚ) :
    (score < LEVEL_UP_PASS_PERCENTAGE →
      jsIndexOf CEFR_LEVELS_ORDER (handleLevelUpTestComplete u score).level
        = jsIndexOf CEFR_LEVELS_ORDER u.level) ∧
    (LEVEL_UP_PASS_PERCENTAGE ≤ score →
      (jsIndexOf CEFR_LEVELS_ORDER u.level < 4 →
        jsIndexOf CEFR_LEVELS_ORDER (handleLevelUpTestComplete u score).level
          = jsIndexOf CEFR_LEVELS_ORDER u.level + 1) ∧
      (jsIndexOf CEFR_LEVELS_ORDER u.level = 4 →
        jsIndexOf CEFR_LEVELS_ORDER (handleLevelUpTestComplete u score).level
          = jsIndexOf CEFR_LEVELS_ORDER u.level)) ∧
    jsIndexOf CEFR_LEVELS_ORDER u.level
      ≤ jsIndexOf CEFR_LEVELS_ORDER (handleLevelUpTestComplete u score).level ∧
    jsIndexOf CEFR_LEVELS_ORDER (handleLevelUpTestComplete u score).level
      ≤ jsIndexOf CEFR_LEVELS_ORDER u.level + 1 := by
  by_cases hs : LEVEL_UP_PASS_PERCENTAGE ≤ score
  · cases hl : u.level <;>
      simp [handleLevelUpTestComplete, hs, not_le.mpr, hl, jsIndexOf, jsIndexOfAux,
        CEFR_LEVELS_ORDER]
  · cases hl : u.level <;>
      simp [handleLevelUpTestComplete, hs, hl, jsIndexOf, jsIndexOfAux,
        CEFR_LEVELS_ORDER]

/-- Witness for C4 at a concrete passing score from level B1. -/
theorem C4_witness :
    LEVEL_UP_PASS_PERCENTAGE ≤ (9 / 10 : ℚ) ∧
    jsIndexOf CEFR_LEVELS_ORDER
        (handleLevelUpTestComplete
          ⟨⟨"n", "i"⟩, "k", CEFRLevel.B1, ⟨0, "d"⟩, [true], ⟨"d", 0, 0⟩, []⟩
          (9 / 10)).level
      = jsIndexOf CEFR_LEVELS_ORDER
          (⟨⟨"n", "i"⟩, "k", CEFRLevel.B1, ⟨0, "d"⟩, [true], ⟨"d", 0, 0⟩, []⟩ :
            AppUserData).level + 1 := by
  refine ⟨by norm_num [LEVEL_UP_PASS_PERCENTAGE], ?_⟩
  exact ((C4_level_moves_forward_one_step
    ⟨⟨"n", "i"⟩, "k", CEFRLevel.B1, ⟨0, "d"⟩, [true], ⟨"d", 0, 0⟩, []⟩ (9 / 10)).2.1
      (by norm_num [LEVEL_UP_PASS_PERCENTAGE])).1 (by decide)

/-- C6: completing a level-up test resets the progress history to empty
regardless of the outcome, and leaves every field other than `level`
and `taskHistory` unchanged. -/
theorem C6_levelup_resets_history_and_frames_rest (u : AppUserData) (score : ℚ) :
    (handleLevelUpTestComplete u score).taskHistory = [] ∧
    (handleLevelUpTestComplete u score).user = u.user ∧
    (handleLevelUpTestComplete u score).apiKey = u.apiKey ∧
    (handleLevelUpTestComplete u score).dailyStats = u.dailyStats ∧
    (handleLevelUpTestComplete u score).feedbackHistory = u.feedbackHistory ∧
    (handleLevelUpTestComplete u score).imageGeneration = u.imageGeneration :=
  ⟨rfl, rfl, rfl, rfl, rfl, rfl⟩

/-- C7: the rule branch of `generateLearningTask` is periodic in the
completed-task counter with period 24: for every `n > 0`, the branch
chosen at `n + 24` equals the branch chosen at `n`, the rest of the
state held fixed. -/
theorem C7_branch_periodic_24 (n vocabSize : Nat) (hn : 0 < n) :
    selectRule (n + 24) vocabSize = selectRule n vocabSize := by
  have h8 : (n + 24) % 8 = n % 8 := by omega
  have h3 : (n + 24) % 3 = n % 3 := by omega
  have hp : 0 < n + 24 := by omega
  simp [selectRule, h8, h3, hn, hp]

/-- Witness for C7 at `n = 4` (a variety-rule point). -/
theorem C7_witness :
    0 < 4 ∧ selectRule (4 + 24) 0 = selectRule 4 0 :=
  ⟨by decide, C7_branch_periodic_24 4 0 (by decide)⟩

/-- C3 counterexample: the selection-and-instruction-construction step
is not a function of the learner state alone: at `tasksCompleted = 4`
with an empty history, two shuffle outcomes (both permutations of
`ALL_TASK_TYPES`, as `shuffleArray` produces) make
`findLeastRecentTask` break the all-tied ages differently and the built
instruction differs between the two runs. -/
theorem C3_counterexample :
    List.Perm ALL_TASK_TYPES.reverse ALL_TASK_TYPES ∧
    generateInstruction ALL_TASK_TYPES
        ⟨CEFRLevel.A1, [], [], 4, []⟩
      ≠ generateInstruction ALL_TASK_TYPES.reverse
        ⟨CEFRLevel.A1, [], [], 4, []⟩ :=
  ⟨List.reverse_perm _, by decide⟩

/-- C1: `handleNext` preserves the vocabulary invariant: if every
tracked word's mastery lies in `[0, 15)` before the update, then after
the update no word has mastery `≥ 15` or `< 0` — an incorrect outcome
clamps at 0, and a word whose mastery reaches the threshold after a
correct outcome is removed. -/
theorem C1_mastery_invariant_preserved (u : UserData) (t : String) (w : Option String)
    (c : Bool)
    (hinv : ∀ v ∈ u.vocabulary, 0 ≤ v.mastery ∧ v.mastery < VOCABULARY_MASTERY_THRESHOLD) :
    ∀ v ∈ (handleNext u t w c).vocabulary,
      0 ≤ v.mastery ∧ v.mastery < VOCABULARY_MASTERY_THRESHOLD := by
  cases w with
  | none =>
    rw [(handleNext_no_word u t c).1]
    exact hinv
  | some w =>
    cases hfi : List.findIdx? (vocabMatches w) u.vocabulary with
    | some i =>
      have hi : i < u.vocabulary.length :=
        (List.findIdx?_eq_some_iff_findIdx_eq.mp hfi).1
      have hold : u.vocabulary.getD i ⟨"", 0⟩ ∈ u.vocabulary := by
        rw [List.getD_eq_getElem?_getD, List.getElem?_eq_getElem hi]
        exact List.getElem_mem hi
      have h0 := (hinv _ hold).1
      cases c with
      | false =>
        rw [(handleNext_found_incorrect u t w i hfi).1]
        intro v hv
        split at hv
        · rw [eraseIdx_set] at hv
          exact hinv v (List.mem_of_mem_eraseIdx hv)
        · next hthr =>
          rcases List.mem_or_eq_of_mem_set hv with h1 | h1
          · exact hinv v h1
          · subst h1
            exact ⟨le_max_left 0 _, lt_of_not_le hthr⟩
      | true =>
        rw [(handleNext_found_correct u t w i hfi).1]
        intro v hv
        split at hv
        · rw [eraseIdx_set] at hv
          exact hinv v (List.mem_of_mem_eraseIdx hv)
        · next hthr =>
          rcases List.mem_or_eq_of_mem_set hv with h1 | h1
          · exact hinv v h1
          · subst h1
            refine ⟨?_, lt_of_not_le hthr⟩
            show (0 : Int) ≤ (u.vocabulary.getD i ⟨"", 0⟩).mastery + 1
            omega
    | none =>
      cases hb : (t == "WordDefinition" && c) with
      | true =>
        rw [((handleNext_notfound u t w c hfi).1 hb).1]
        intro v hv
        rcases List.mem_append.mp hv with h1 | h1
        · exact hinv v h1
        · simp only [List.mem_singleton] at h1
          subst h1
          exact ⟨by norm_num, by norm_num [VOCABULARY_MASTERY_THRESHOLD]⟩
      | false =>
        rw [((handleNext_notfound u t w c hfi).2 hb).1]
        exact hinv

/-- Witness for C1 on a concrete state: an incorrect outcome on a
low-mastery word clamps it at 0 and keeps the invariant. -/
theorem C1_witness :
    (∀ v ∈ (⟨CEFRLevel.A1, [⟨"cat", 3⟩], [], 0, []⟩ : UserData).vocabulary,
      0 ≤ v.mastery ∧ v.mastery < VOCABULARY_MASTERY_THRESHOLD) ∧
    (∀ v ∈ (handleNext ⟨CEFRLevel.A1, [⟨"cat", 3⟩], [], 0, []⟩ "Translate"
        (some "cat") false).vocabulary,
      0 ≤ v.mastery ∧ v.mastery < VOCABULARY_MASTERY_THRESHOLD) :=
  ⟨by decide,
   C1_mastery_invariant_preserved ⟨CEFRLevel.A1, [⟨"cat", 3⟩], [], 0, []⟩
     "Translate" (some "cat") false (by decide)⟩

/-- C5: for every completed task and outcome, `handleNext` increments
`tasksCompleted` by exactly 1 and appends the task's type to the task
history; when the task's word is tracked (first case-insensitive match
at index `i`), a correct outcome moves that entry's mastery to exactly
`mastery + 1` (the entry being retired instead when that reaches the
threshold) and an incorrect outcome moves it to `max 0 (mastery - 5)`;
every other index of the vocabulary is unchanged. -/
theorem C5_mastery_update_exact (u : UserData) (t w : String) (c : Bool) (i : Nat)
    (vw : VocabularyWord)
    (hfi : List.findIdx? (vocabMatches w) u.vocabulary = some i)
    (hvw : u.vocabulary[i]? = some vw)
    (hm : vw.mastery < VOCABULARY_MASTERY_THRESHOLD) :
    (handleNext u t (some w) c).tasksCompleted = u.tasksCompleted + 1 ∧
    (handleNext u t (some w) c).taskHistory =
      tailN LONG_TERM_TASK_HISTORY_LENGTH (u.taskHistory ++ [t]) ∧
    (c = true →
      (vw.mastery + 1 < VOCABULARY_MASTERY_THRESHOLD →
        (handleNext u t (some w) c).vocabulary[i]? =
          some { vw with mastery := vw.mastery + 1 } ∧
        ∀ j, j ≠ i →
          (handleNext u t (some w) c).vocabulary[j]? = u.vocabulary[j]?) ∧
      (VOCABULARY_MASTERY_THRESHOLD ≤ vw.mastery + 1 →
        (handleNext u t (some w) c).vocabulary = u.vocabulary.eraseIdx i)) ∧
    (c = false →
      (handleNext u t (some w) c).vocabulary[i]? =
        some { vw with mastery := max 0 (vw.mastery - 5) } ∧
      ∀ j, j ≠ i →
        (handleNext u t (some w) c).vocabulary[j]? = u.vocabulary[j]?) := by
  have hi : i < u.vocabulary.length :=
    (List.findIdx?_eq_some_iff_findIdx_eq.mp hfi).1
  have hgd : u.vocabulary.getD i ⟨"", 0⟩ = vw := by
    rw [List.getD_eq_getElem?_getD, hvw]
    rfl
  refine ⟨(handleNext_base u t (some w) c).1, ?_, ?_, ?_⟩
  · rw [(handleNext_base u t (some w) c).2,
      jsSliceFrom_neg _ _ (by norm_num [LONG_TERM_TASK_HISTORY_LENGTH])]
  · rintro rfl
    constructor
    · intro hlt
      have hcond : ¬ (VOCABULARY_MASTERY_THRESHOLD ≤
          (u.vocabulary.getD i ⟨"", 0⟩).mastery + 1) := by
        rw [hgd]
        omega
      rw [(handleNext_found_correct u t w i hfi).1, if_neg hcond]
      rw [hgd]
      exact ⟨List.getElem?_set_self hi, fun j hj => List.getElem?_set_ne (Ne.symm hj)⟩
    · intro hge
      have hcond : VOCABULARY_MASTERY_THRESHOLD ≤
          (u.vocabulary.getD i ⟨"", 0⟩).mastery + 1 := by
        rw [hgd]
        exact hge
      rw [(handleNext_found_correct u t w i hfi).1, if_pos hcond, eraseIdx_set]
  · rintro rfl
    have hcond : ¬ (VOCABULARY_MASTERY_THRESHOLD ≤
        max 0 ((u.vocabulary.getD i ⟨"", 0⟩).mastery - 5)) := by
      rw [hgd]
      refine not_le.mpr (max_lt (by norm_num [VOCABULARY_MASTERY_THRESHOLD]) ?_)
      simp only [VOCABULARY_MASTERY_THRESHOLD] at hm ⊢
      omega
    rw [(handleNext_found_incorrect u t w i hfi).1, if_neg hcond]
    rw [hgd]
    exact ⟨List.getElem?_set_self hi, fun j hj => List.getElem?_set_ne (Ne.symm hj)⟩

/-- Witness for C5: a correct outcome on a tracked word of mastery 3
bumps it to 4 and the counter by one. -/
theorem C5_witness :
    (handleNext ⟨CEFRLevel.A1, [⟨"cat", 3⟩], [], 0, []⟩ "Translate"
        (some "cat") true).tasksCompleted = 0 + 1 ∧
    (handleNext ⟨CEFRLevel.A1, [⟨"cat", 3⟩], [], 0, []⟩ "Translate"
        (some "cat") true).vocabulary[0]? = some ⟨"cat", (3 : Int) + 1⟩ := by
  have h := C5_mastery_update_exact ⟨CEFRLevel.A1, [⟨"cat", 3⟩], [], 0, []⟩
    "Translate" "cat" true 0 ⟨"cat", 3⟩ (by decide) (by decide) (by decide)
  exact ⟨h.1, ((h.2.2.1 rfl).1 (by decide)).1⟩

/-- C10: a word absent from the vocabulary is added by `handleNext`
only on a correct `WordDefinition` task; it is then added with mastery
exactly 1 and appended to the recently-introduced-words list; on any
other task type or an incorrect outcome, both the vocabulary and the
recently-introduced-words list are unchanged. -/
theorem C10_unknown_word_addition (u : UserData) (t w : String) (c : Bool)
    (hfi : List.findIdx? (vocabMatches w) u.vocabulary = none) :
    (t = "WordDefinition" ∧ c = true →
      (handleNext u t (some w) c).vocabulary = u.vocabulary ++ [⟨w, 1⟩] ∧
      (handleNext u t (some w) c).recentNewWords =
        tailN (RECENTLY_INTRODUCED_WORDS_MEMORY - 1) u.recentNewWords ++ [w]) ∧
    (¬ (t = "WordDefinition" ∧ c = true) →
      (handleNext u t (some w) c).vocabulary = u.vocabulary ∧
      (handleNext u t (some w) c).recentNewWords = u.recentNewWords) := by
  constructor
  · rintro ⟨rfl, rfl⟩
    have h := (handleNext_notfound u "WordDefinition" w true hfi).1 (by decide)
    refine ⟨h.1, ?_⟩
    rw [h.2]
    congr 1
    have harg : (-(RECENTLY_INTRODUCED_WORDS_MEMORY : Int) + 1) =
        -((RECENTLY_INTRODUCED_WORDS_MEMORY - 1 : Nat) : Int) := by
      norm_num [RECENTLY_INTRODUCED_WORDS_MEMORY]
    rw [harg, jsSliceFrom_neg _ _ (by norm_num [RECENTLY_INTRODUCED_WORDS_MEMORY])]
  · intro hn
    have hb : (t == "WordDefinition" && c) = false := by
      by_cases ht : t = "WordDefinition"
      · cases c
        · simp
        · exact absurd ⟨ht, rfl⟩ hn
      · simp [ht]
    exact (handleNext_notfound u t w c hfi).2 hb

/-- Witness for C10: a correct `WordDefinition` task introduces an
unknown word with mastery 1 and records it. -/
theorem C10_witness :
    (handleNext ⟨CEFRLevel.A1, [], [], 0, []⟩ "WordDefinition"
        (some "dog") true).vocabulary = [] ++ [⟨"dog", 1⟩] ∧
    (handleNext ⟨CEFRLevel.A1, [], [], 0, []⟩ "WordDefinition"
        (some "dog") true).recentNewWords =
      tailN (RECENTLY_INTRODUCED_WORDS_MEMORY - 1) [] ++ ["dog"] :=
  (C10_unknown_word_addition ⟨CEFRLevel.A1, [], [], 0, []⟩ "WordDefinition" "dog" true
    (by decide)).1 ⟨rfl, rfl⟩

/-- C2: all history buffers are bounded and evicted oldest-first: after
`handleNext` the task-type history is exactly the last 12 entries of the
old history with the new type appended, and the
recently-introduced-words list is the last 5 entries of the old list
with at most one appended word; after `handleTaskComplete` the boolean
progress history is the last 100 entries of the old history with the
results appended; after `handleFeedbackSubmit` the feedback history is
the last 20 entries of the old history with the feedback appended. -/
theorem C2_history_buffers_capped_fifo (u : UserData) (au : AppUserData)
    (t : String) (wo : Option String) (c : Bool) (results : List Bool) (fb : String)
    (hrn : u.recentNewWords.length ≤ RECENTLY_INTRODUCED_WORDS_MEMORY)
    (hfh : au.feedbackHistory.length ≤ 20) :
    ((handleNext u t wo c).taskHistory
        = tailN LONG_TERM_TASK_HISTORY_LENGTH (u.taskHistory ++ [t]) ∧
      (handleNext u t wo c).taskHistory.length ≤ LONG_TERM_TASK_HISTORY_LENGTH) ∧
    (∃ app : List String, app.length ≤ 1 ∧
      (handleNext u t wo c).recentNewWords
        = tailN RECENTLY_INTRODUCED_WORDS_MEMORY (u.recentNewWords ++ app) ∧
      (handleNext u t wo c).recentNewWords.length ≤ RECENTLY_INTRODUCED_WORDS_MEMORY) ∧
    ((handleTaskComplete au results).taskHistory
        = tailN PROGRESS_HISTORY_LENGTH (au.taskHistory ++ results) ∧
      (handleTaskComplete au results).taskHistory.length ≤ PROGRESS_HISTORY_LENGTH) ∧
    ((handleFeedbackSubmit au fb).feedbackHistory
        = tailN 20 (au.feedbackHistory ++ [fb]) ∧
      (handleFeedbackSubmit au fb).feedbackHistory.length ≤ 20) := by
  have hth : (handleNext u t wo c).taskHistory
      = tailN LONG_TERM_TASK_HISTORY_LENGTH (u.taskHistory ++ [t]) := by
    rw [(handleNext_base u t wo c).2,
      jsSliceFrom_neg _ _ (by norm_num [LONG_TERM_TASK_HISTORY_LENGTH])]
  refine ⟨⟨hth, hth ▸ tailN_length_le _ _⟩, ?_, ?_, ?_⟩
  · -- recently-introduced words
    cases wo with
    | none =>
      refine ⟨[], by simp, ?_, ?_⟩
      · rw [(handleNext_no_word u t c).2, List.append_nil, tailN_eq_self _ _ hrn]
      · rw [(handleNext_no_word u t c).2]
        exact hrn
    | some w =>
      cases hfi : List.findIdx? (vocabMatches w) u.vocabulary with
      | some i =>
        have hrn' : (handleNext u t (some w) c).recentNewWords = u.recentNewWords := by
          cases c
          · exact (handleNext_found_incorrect u t w i hfi).2
          · exact (handleNext_found_correct u t w i hfi).2
        refine ⟨[], by simp, ?_, ?_⟩
        · rw [hrn', List.append_nil, tailN_eq_self _ _ hrn]
        · rw [hrn']
          exact hrn
      | none =>
        cases hb : (t == "WordDefinition" && c) with
        | true =>
          have h := ((handleNext_notfound u t w c hfi).1 hb).2
          refine ⟨[w], by simp, ?_, ?_⟩
          · rw [h]
            have harg : (-(RECENTLY_INTRODUCED_WORDS_MEMORY : Int) + 1) =
                -((RECENTLY_INTRODUCED_WORDS_MEMORY - 1 : Nat) : Int) := by
              norm_num [RECENTLY_INTRODUCED_WORDS_MEMORY]
            rw [harg, jsSliceFrom_neg _ _ (by norm_num [RECENTLY_INTRODUCED_WORDS_MEMORY])]
            show tailN 4 u.recentNewWords ++ [w] = tailN (4 + 1) (u.recentNewWords ++ [w])
            exact (tailN_snoc 4 u.recentNewWords w).symm
          · rw [h]
            have harg : (-(RECENTLY_INTRODUCED_WORDS_MEMORY : Int) + 1) =
                -((RECENTLY_INTRODUCED_WORDS_MEMORY - 1 : Nat) : Int) := by
              norm_num [RECENTLY_INTRODUCED_WORDS_MEMORY]
            rw [harg, jsSliceFrom_neg _ _ (by norm_num [RECENTLY_INTRODUCED_WORDS_MEMORY])]
            have := tailN_length_le (RECENTLY_INTRODUCED_WORDS_MEMORY - 1) u.recentNewWords
            simp only [List.length_append, List.length_singleton]
            norm_num [RECENTLY_INTRODUCED_WORDS_MEMORY] at this ⊢
            omega
        | false =>
          have h := ((handleNext_notfound u t w c hfi).2 hb).2
          refine ⟨[], by simp, ?_, ?_⟩
          · rw [h, List.append_nil, tailN_eq_self _ _ hrn]
          · rw [h]
            exact hrn
  · -- progress history
    have htc : (handleTaskComplete au results).taskHistory
        = tailN PROGRESS_HISTORY_LENGTH (au.taskHistory ++ results) := by
      simp only [handleTaskComplete]
      split
      · rfl
      · next hle => exact (tailN_eq_self _ _ (not_lt.mp hle)).symm
    exact ⟨htc, htc ▸ tailN_length_le _ _⟩
  · -- feedback history
    have hfs : (handleFeedbackSubmit au fb).feedbackHistory
        = tailN 20 (au.feedbackHistory ++ [fb]) := by
      simp only [handleFeedbackSubmit]
      split
      · next hgt =>
        simp only [tailN, List.length_append, List.length_singleton]
        congr 1
        simp only [List.length_append, List.length_singleton] at hgt
        omega
      · next hle => exact (tailN_eq_self _ _ (not_lt.mp hle)).symm
    exact ⟨hfs, hfs ▸ tailN_length_le _ _⟩

/-- Witness for C2 on a concrete state with the feedback buffer at its
cap: submitting one more entry evicts exactly the oldest. -/
theorem C2_witness :
    (List.replicate 20 "x" : List String).length ≤ 20 ∧
    (handleFeedbackSubmit
        ⟨⟨"n", "i"⟩, "k", CEFRLevel.A1, ⟨0, "d"⟩, [], ⟨"d", 0, 0⟩,
          List.replicate 20 "x"⟩ "fb").feedbackHistory
      = tailN 20 (List.replicate 20 "x" ++ ["fb"]) :=
  ⟨by decide,
   (C2_history_buffers_capped_fifo ⟨CEFRLevel.A1, [], [], 0, []⟩
      ⟨⟨"n", "i"⟩, "k", CEFRLevel.A1, ⟨0, "d"⟩, [], ⟨"d", 0, 0⟩,
        List.replicate 20 "x"⟩ "t" none false [] "fb"
      (by decide) (by decide)).2.2.2.1⟩

theorem flrtStep_wd (history : List String) (acc : String × Option (WithTop Nat))
    (c : String) (hc : c = "WordDefinition") : flrtStep history acc c = acc := by
  simp [flrtStep, hc]

theorem flrtStep_some_acc (history : List String) (a : String) (m : WithTop Nat)
    (c : String) (hc : c ≠ "WordDefinition") :
    flrtStep history (a, some m) c =
      if m < ageOf history c then (c, some (ageOf history c)) else (a, some m) := by
  simp [flrtStep, hc]

theorem flrtStep_none_acc (history : List String) (a : String)
    (c : String) (hc : c ≠ "WordDefinition") :
    flrtStep history (a, none) c = (c, some (ageOf history c)) := by
  simp [flrtStep, hc]

/-- Invariant of the `findLeastRecentTask` loop once the accumulator
holds a candidate: the final candidate is never `WordDefinition`, its
recorded age is its own, it came from the accumulator or the remaining
list, its age only grows, and it dominates the age of every
non-`WordDefinition` element of the remaining list. -/
theorem flrt_fold_some (history : List String) :
    ∀ (l : List String) (a : String) (m : WithTop Nat),
      a ≠ "WordDefinition" → m = ageOf history a →
      (l.foldl (flrtStep history) (a, some m)).2
        = some (ageOf history (l.foldl (flrtStep history) (a, some m)).1) ∧
      (l.foldl (flrtStep history) (a, some m)).1 ≠ "WordDefinition" ∧
      ((l.foldl (flrtStep history) (a, some m)).1 = a ∨
        (l.foldl (flrtStep history) (a, some m)).1 ∈ l) ∧
      m ≤ ageOf history (l.foldl (flrtStep history) (a, some m)).1 ∧
      ∀ x ∈ l, x ≠ "WordDefinition" →
        ageOf history x ≤ ageOf history (l.foldl (flrtStep history) (a, some m)).1 := by
  intro l
  induction l with
  | nil =>
    intro a m ha hm
    simp only [List.foldl_nil]
    exact ⟨by rw [hm], ha, by simp, le_of_eq hm, by simp⟩
  | cons c l ih =>
    intro a m ha hm
    rw [List.foldl_cons]
    by_cases hc : c = "WordDefinition"
    · rw [flrtStep_wd history _ c hc]
      obtain ⟨h1, h2, h3, h4, h5⟩ := ih a m ha hm
      refine ⟨h1, h2, ?_, h4, ?_⟩
      · rcases h3 with h3 | h3
        · exact Or.inl h3
        · exact Or.inr (List.mem_cons_of_mem c h3)
      · intro x hx hxne
        rcases List.mem_cons.mp hx with rfl | hx
        · exact absurd hc hxne
        · exact h5 x hx hxne
    · rw [flrtStep_some_acc history a m c hc]
      by_cases hlt : m < ageOf history c
      · rw [if_pos hlt]
        obtain ⟨h1, h2, h3, h4, h5⟩ := ih c (ageOf history c) hc rfl
        refine ⟨h1, h2, ?_, le_trans (le_of_lt hlt) h4, ?_⟩
        · rcases h3 with h3 | h3
          · exact Or.inr (List.mem_cons.mpr (Or.inl h3))
          · exact Or.inr (List.mem_cons_of_mem c h3)
        · intro x hx hxne
          rcases List.mem_cons.mp hx with rfl | hx
          · exact h4
          · exact h5 x hx hxne
      · rw [if_neg hlt]
        obtain ⟨h1, h2, h3, h4, h5⟩ := ih a m ha hm
        refine ⟨h1, h2, ?_, h4, ?_⟩
        · rcases h3 with h3 | h3
          · exact Or.inl h3
          · exact Or.inr (List.mem_cons_of_mem c h3)
        · intro x hx hxne
          rcases List.mem_cons.mp hx with rfl | hx
          · exact le_trans (not_lt.mp hlt) h4
          · exact h5 x hx hxne

/-- Invariant of the `findLeastRecentTask` loop from the initial
accumulator: as soon as the list holds a non-`WordDefinition` task, the
result is a non-`WordDefinition` element of the list whose age
dominates every non-`WordDefinition` element. -/
theorem flrt_fold_none (history : List String) :
    ∀ (l : List String) (a0 : String),
      (∃ x ∈ l, x ≠ "WordDefinition") →
      (l.foldl (flrtStep history) (a0, none)).1 ≠ "WordDefinition" ∧
      (l.foldl (flrtStep history) (a0, none)).1 ∈ l ∧
      ∀ x ∈ l, x ≠ "WordDefinition" →
        ageOf history x ≤ ageOf history (l.foldl (flrtStep history) (a0, none)).1 := by
  intro l
  induction l with
  | nil =>
    intro a0 hex
    obtain ⟨x, hx, -⟩ := hex
    exact absurd hx (List.not_mem_nil x)
  | cons c l ih =>
    intro a0 hex
    rw [List.foldl_cons]
    by_cases hc : c = "WordDefinition"
    · rw [flrtStep_wd history _ c hc]
      have hex' : ∃ x ∈ l, x ≠ "WordDefinition" := by
        obtain ⟨x, hx, hxne⟩ := hex
        rcases List.mem_cons.mp hx with rfl | hx
        · exact absurd hc hxne
        · exact ⟨x, hx, hxne⟩
      obtain ⟨h2, h3, h5⟩ := ih a0 hex'
      refine ⟨h2, List.mem_cons_of_mem c h3, ?_⟩
      intro x hx hxne
      rcases List.mem_cons.mp hx with rfl | hx
      · exact absurd hc hxne
      · exact h5 x hx hxne
    · rw [flrtStep_none_acc history a0 c hc]
      obtain ⟨h1, h2, h3, h4, h5⟩ := flrt_fold_some history l c (ageOf history c) hc rfl
      refine ⟨h2, ?_, ?_⟩
      · rcases h3 with h3 | h3
        · exact List.mem_cons.mpr (Or.inl h3)
        · exact List.mem_cons_of_mem c h3
      · intro x hx hxne
        rcases List.mem_cons.mp hx with rfl | hx
        · exact h4
        · exact h5 x hx hxne

/-- C8: for every task list containing a non-`WordDefinition` type,
every shuffle of it, and every history, `findLeastRecentTask` never
returns `WordDefinition`, returns an element of the task list, and the
returned type has maximal age among the non-`WordDefinition` types
(with a type absent from the history counting as older — age `⊤` —
than every present type). -/
theorem C8_least_recent_task_maximal_age (allTasks σ history : List String)
    (hperm : σ.Perm allTasks) (_hne : allTasks ≠ [])
    (hex : ∃ x ∈ allTasks, x ≠ "WordDefinition") :
    findLeastRecentTask σ allTasks history ≠ "WordDefinition" ∧
    findLeastRecentTask σ allTasks history ∈ allTasks ∧
    ∀ x ∈ allTasks, x ≠ "WordDefinition" →
      ageOf history x ≤ ageOf history (findLeastRecentTask σ allTasks history) := by
  have hexσ : ∃ x ∈ σ, x ≠ "WordDefinition" := by
    obtain ⟨x, hx, hxne⟩ := hex
    exact ⟨x, hperm.mem_iff.mpr hx, hxne⟩
  obtain ⟨h2, h3, h5⟩ := flrt_fold_none history σ (allTasks.headD "") hexσ
  exact ⟨h2, hperm.subset h3,
    fun x hx hxne => h5 x (hperm.mem_iff.mpr hx) hxne⟩

/-- Witness for C8 on the repository's task-type list with a one-entry
history. -/
theorem C8_witness :
    findLeastRecentTask ALL_TASK_TYPES ALL_TASK_TYPES ["Translate"]
      ≠ "WordDefinition" ∧
    findLeastRecentTask ALL_TASK_TYPES ALL_TASK_TYPES ["Translate"]
      ∈ ALL_TASK_TYPES ∧
    ∀ x ∈ ALL_TASK_TYPES, x ≠ "WordDefinition" →
      ageOf ["Translate"] x ≤
        ageOf ["Translate"]
          (findLeastRecentTask ALL_TASK_TYPES ALL_TASK_TYPES ["Translate"]) :=
  C8_least_recent_task_maximal_age ALL_TASK_TYPES ALL_TASK_TYPES ["Translate"]
    (List.Perm.refl _) (by decide) ⟨"Translate", by decide, by decide⟩

/-- C3 (amended): the selection-and-instruction-construction step of
`generateLearningTask` is deterministic up to the random tie-break of
`findLeastRecentTask`: outside the variety branch
(`tasksCompleted % 8 == 4`) two runs on the same state build identical
instruction payloads whatever the shuffle outcomes; inside the variety
branch the two runs select non-`WordDefinition` task types of equal
(maximal) age, though the chosen type itself — and hence the payload —
may differ between runs. -/
theorem C3_amended_deterministic_up_to_ties (u : UserData) (σ1 σ2 : List String)
    (h1 : σ1.Perm ALL_TASK_TYPES) (h2 : σ2.Perm ALL_TASK_TYPES) :
    (¬ (u.tasksCompleted > 0 ∧ u.tasksCompleted % 8 = 4) →
      generateInstruction σ1 u = generateInstruction σ2 u) ∧
    findLeastRecentTask σ1 ALL_TASK_TYPES u.taskHistory ≠ "WordDefinition" ∧
    findLeastRecentTask σ2 ALL_TASK_TYPES u.taskHistory ≠ "WordDefinition" ∧
    ageOf u.taskHistory (findLeastRecentTask σ1 ALL_TASK_TYPES u.taskHistory)
      = ageOf u.taskHistory (findLeastRecentTask σ2 ALL_TASK_TYPES u.taskHistory) := by
  have hex : ∃ x ∈ ALL_TASK_TYPES, x ≠ "WordDefinition" :=
    ⟨"Translate", by decide, by decide⟩
  have hex1 : ∃ x ∈ σ1, x ≠ "WordDefinition" := by
    obtain ⟨x, hx, hxne⟩ := hex
    exact ⟨x, h1.mem_iff.mpr hx, hxne⟩
  have hex2 : ∃ x ∈ σ2, x ≠ "WordDefinition" := by
    obtain ⟨x, hx, hxne⟩ := hex
    exact ⟨x, h2.mem_iff.mpr hx, hxne⟩
  obtain ⟨hr1ne, hr1mem, hr1max⟩ :=
    flrt_fold_none u.taskHistory σ1 (ALL_TASK_TYPES.headD "") hex1
  obtain ⟨hr2ne, hr2mem, hr2max⟩ :=
    flrt_fold_none u.taskHistory σ2 (ALL_TASK_TYPES.headD "") hex2
  refine ⟨?_, hr1ne, hr2ne, ?_⟩
  · intro hn
    simp only [generateInstruction, if_neg hn]
  · refine le_antisymm ?_ ?_
    · exact hr2max _ (h2.mem_iff.mpr (h1.subset hr1mem)) hr1ne
    · exact hr1max _ (h1.mem_iff.mpr (h2.subset hr2mem)) hr2ne

/-- Witness for the amended C3: outside the variety branch two
different shuffles build the same instruction. -/
theorem C3_amended_witness :
    generateInstruction ALL_TASK_TYPES ⟨CEFRLevel.A1, [], ["Translate"], 5, []⟩
      = generateInstruction ALL_TASK_TYPES.reverse
          ⟨CEFRLevel.A1, [], ["Translate"], 5, []⟩ :=
  (C3_amended_deterministic_up_to_ties ⟨CEFRLevel.A1, [], ["Translate"], 5, []⟩
    ALL_TASK_TYPES ALL_TASK_TYPES.reverse
    (List.Perm.refl _) (List.reverse_perm _)).1 (by decide)

/-! ### Normalization lemmas for C9 -/

theorem toNat_ofNat_valid (n : Nat) (h : n < 55296) : (Char.ofNat n).toNat = n := by
  unfold Char.ofNat
  rw [dif_pos (Or.inl h)]
  rfl

theorem toLowerChar_idem (c : Char) : toLowerChar (toLowerChar c) = toLowerChar c := by
  unfold toLowerChar
  by_cases h : 65 ≤ c.toNat ∧ c.toNat ≤ 90
  · have hv : c.toNat + 32 < 55296 := by omega
    have hn : ¬ (65 ≤ (Char.ofNat (c.toNat + 32)).toNat ∧
        (Char.ofNat (c.toNat + 32)).toNat ≤ 90) := by
      rw [toNat_ofNat_valid _ hv]
      omega
    rw [if_pos h, if_neg hn]
  · rw [if_neg h, if_neg h]

theorem punct_fixed (p : Char) (hp : p ∈ punctChars) :
    toLowerChar p = p ∧ isPunctChar p = true := by
  fin_cases hp <;> exact ⟨by decide, by decide⟩

theorem ws_fixed (c : Char) (hw : isWsChar c = true) :
    toLowerChar c = c ∧ isPunctChar c = false := by
  have hc : c = ' ' ∨ c = '\t' ∨ c = '\n' ∨ c = '\r' ∨ c = '\x0b' ∨ c = '\x0c' := by
    have h := hw
    simp only [isWsChar, Bool.or_eq_true, beq_iff_eq] at h
    tauto
  rcases hc with rfl | rfl | rfl | rfl | rfl | rfl <;> exact ⟨by decide, by decide⟩

/-- The lowercase-and-strip-punctuation prefix of `normalize`. -/
def preNorm (s : List Char) : List Char :=
  (s.map toLowerChar).filter (fun c => !isPunctChar c)

theorem normalize_eq_preNorm (s : List Char) :
    normalize s = trimWs (collapseWsAux false (preNorm s)) := rfl

theorem preNorm_append (u v : List Char) :
    preNorm (u ++ v) = preNorm u ++ preNorm v := by
  simp [preNorm]

theorem preNorm_punct_cons (p : Char) (hp : isPunctChar p = true) (v : List Char) :
    preNorm (p :: v) = preNorm v := by
  have hpm : p ∈ punctChars := by simpa [isPunctChar] using hp
  obtain ⟨hl, -⟩ := punct_fixed p hpm
  simp [preNorm, hl, hp]

theorem preNorm_ws_cons (w : Char) (hw : isWsChar w = true) (v : List Char) :
    preNorm (w :: v) = w :: preNorm v := by
  obtain ⟨hl, hp⟩ := ws_fixed w hw
  simp [preNorm, hl, hp]

theorem preNorm_map_toLower (s : List Char) :
    preNorm (s.map toLowerChar) = preNorm s := by
  unfold preNorm
  rw [List.map_map]
  congr 1
  exact List.map_eq_map_iff.mpr fun a _ => toLowerChar_idem a

theorem collapse_ws_dup (x : List Char) (b : Bool) (w w' : Char) (y : List Char)
    (hw : isWsChar w = true) (hw' : isWsChar w' = true) :
    collapseWsAux b (x ++ w :: w' :: y) = collapseWsAux b (x ++ w :: y) := by
  induction x generalizing b with
  | nil => cases b <;> simp [collapseWsAux, hw, hw']
  | cons c x ih =>
    by_cases hc : isWsChar c = true
    · cases b <;> simp [collapseWsAux, hc, ih]
    · simp [collapseWsAux, hc, ih]

theorem dropWhile_collapse_state (z : List Char) :
    (collapseWsAux false z).dropWhile isWsChar
      = (collapseWsAux true z).dropWhile isWsChar := by
  cases z with
  | nil => rfl
  | cons d z' =>
    by_cases hd : isWsChar d = true
    · simp [collapseWsAux, hd, List.dropWhile_cons, (by decide : isWsChar ' ' = true)]
    · simp [collapseWsAux, hd]

theorem normalize_ws_cons (w : Char) (hw : isWsChar w = true) (a : List Char) :
    normalize (w :: a) = normalize a := by
  rw [normalize_eq_preNorm, normalize_eq_preNorm, preNorm_ws_cons w hw]
  have h : (collapseWsAux false (w :: preNorm a)).dropWhile isWsChar
      = (collapseWsAux false (preNorm a)).dropWhile isWsChar := by
    rw [dropWhile_collapse_state (preNorm a)]
    simp [collapseWsAux, hw, List.dropWhile_cons, (by decide : isWsChar ' ' = true)]
  simp [trimWs, h]

theorem collapse_snoc_ws (w : Char) (hw : isWsChar w = true) (z : List Char) (b : Bool) :
    collapseWsAux b (z ++ [w]) = collapseWsAux b z ∨
    collapseWsAux b (z ++ [w]) = collapseWsAux b z ++ [' '] := by
  induction z generalizing b with
  | nil =>
    cases b
    · right
      simp [collapseWsAux, hw]
    · left
      simp [collapseWsAux, hw]
  | cons c z' ih =>
    by_cases hc : isWsChar c = true
    · cases b <;> simp only [List.cons_append, collapseWsAux, hc, if_true] <;>
        rcases ih true with h | h <;> simp [h]
    · simp only [List.cons_append, collapseWsAux, hc]
      rcases ih false with h | h <;> simp [h, hc]

theorem trimWs_snoc_space (x : List Char) : trimWs (x ++ [' ']) = trimWs x := by
  unfold trimWs
  rw [List.dropWhile_append]
  by_cases hd : (x.dropWhile isWsChar).isEmpty
  · rw [if_pos hd]
    have hx : x.dropWhile isWsChar = [] := List.isEmpty_iff.mp hd
    rw [hx]
    simp [List.dropWhile, (by decide : isWsChar ' ' = true)]
  · rw [if_neg hd]
    simp [List.reverse_append, List.dropWhile_cons, (by decide : isWsChar ' ' = true)]

theorem normalize_snoc_ws (w : Char) (hw : isWsChar w = true) (a : List Char) :
    normalize (a ++ [w]) = normalize a := by
  rw [normalize_eq_preNorm, normalize_eq_preNorm, preNorm_append,
    preNorm_ws_cons w hw]
  show trimWs (collapseWsAux false (preNorm a ++ [w])) = trimWs (collapseWsAux false (preNorm a))
  rcases collapse_snoc_ws w hw (preNorm a) false with h | h
  · rw [h]
  · rw [h, trimWs_snoc_space]

theorem normalize_punct_insert (u v : List Char) (p : Char) (hp : isPunctChar p = true) :
    normalize (u ++ p :: v) = normalize (u ++ v) := by
  rw [normalize_eq_preNorm, normalize_eq_preNorm, preNorm_append,
    preNorm_punct_cons p hp, preNorm_append]

theorem normalize_ws_dup (u v : List Char) (w w' : Char)
    (hw : isWsChar w = true) (hw' : isWsChar w' = true) :
    normalize (u ++ w :: w' :: v) = normalize (u ++ w :: v) := by
  rw [normalize_eq_preNorm, normalize_eq_preNorm, preNorm_append,
    preNorm_ws_cons w hw, preNorm_ws_cons w' hw', preNorm_append, preNorm_ws_cons w hw,
    collapse_ws_dup (preNorm u) false w w' (preNorm v) hw hw']

theorem normalize_map_toLower (a : List Char) :
    normalize (a.map toLowerChar) = normalize a := by
  rw [normalize_eq_preNorm, normalize_eq_preNorm, preNorm_map_toLower]

/-- C9: `handleCheckAnswer` judges the answer correct exactly when the
normalized forms coincide, and grading is therefore invariant under
letter case, the deleted punctuation characters, and extra whitespace
(duplicated inside a run, leading, or trailing) in the user's
answer. -/
theorem C9_grading_is_normalized_equality (ans ca : List Char) :
    (handleCheckAnswer ans ca = true ↔ normalize ans = normalize ca) ∧
    (∀ b : List Char, ans.map toLowerChar = b.map toLowerChar →
      handleCheckAnswer ans ca = handleCheckAnswer b ca) ∧
    (∀ u v : List Char, ∀ p : Char, isPunctChar p = true →
      handleCheckAnswer (u ++ p :: v) ca = handleCheckAnswer (u ++ v) ca) ∧
    (∀ u v : List Char, ∀ w w' : Char, isWsChar w = true → isWsChar w' = true →
      handleCheckAnswer (u ++ w :: w' :: v) ca = handleCheckAnswer (u ++ w :: v) ca) ∧
    (∀ w : Char, isWsChar w = true →
      handleCheckAnswer (w :: ans) ca = handleCheckAnswer ans ca ∧
      handleCheckAnswer (ans ++ [w]) ca = handleCheckAnswer ans ca) := by
  refine ⟨?_, ?_, ?_, ?_, ?_⟩
  · simp [handleCheckAnswer]
  · intro b hb
    unfold handleCheckAnswer
    rw [show normalize ans = normalize b by
      rw [← normalize_map_toLower ans, hb, normalize_map_toLower]]
  · intro u v p hp
    unfold handleCheckAnswer
    rw [normalize_punct_insert u v p hp]
  · intro u v w w' hw hw'
    unfold handleCheckAnswer
    rw [normalize_ws_dup u v w w' hw hw']
  · intro w hw
    constructor
    · unfold handleCheckAnswer
      rw [normalize_ws_cons w hw]
    · unfold handleCheckAnswer
      rw [normalize_snoc_ws w hw]

/-- Witness for C9: inserting a punctuation character does not change
the grade on a concrete answer. -/
theorem C9_witness :
    handleCheckAnswer (['a', 'b'] ++ '!' :: [' ', 'c']) ['x']
      = handleCheckAnswer (['a', 'b'] ++ [' ', 'c']) ['x'] :=
  (C9_grading_is_normalized_equality (['a', 'b'] ++ '!' :: [' ', 'c']) ['x']).2.2.1
    ['a', 'b'] [' ', 'c'] '!' (by decide)

end EnglishApp
